import Mathlib

/-!
Verification of the AutoGPT graph execution engine
(`backend/executor/manager.py`) against its natural-language specification.

The Python source is shallowly embedded: pure helpers become Lean
functions, the scheduler main loop becomes a fuel-indexed recursion that
accumulates an explicit effect trace, and the per-node serialization
discipline becomes a labelled transition system.  Collaborators that live
outside the file under verification (the database manager, the block
schema internals, the distributed lock backend) are modelled from the
specification and are marked as such in their doc comments.
-/

/-- Execution status enum shared by graph and node executions
(`backend.data.execution.ExecutionStatus`, as described in spec section 3). -/
inductive ExecutionStatus
  | INCOMPLETE
  | QUEUED
  | RUNNING
  | COMPLETED
  | FAILED
  | TERMINATED
deriving DecidableEq, Repr

/-- A Python runtime value, as far as the executor inspects one:
integers, strings, booleans and None. -/
inductive PyVal
  | vInt (n : Int)
  | vStr (s : String)
  | vBool (b : Bool)
  | vNone
deriving DecidableEq, Repr

/-- Python type tags, standing for the classes compared by
`type(value) is not data_type` in `validate_exec`. -/
inductive PyType
  | tInt
  | tStr
  | tBool
deriving DecidableEq, Repr

/-- The runtime type of a value (`type(value)`); None has its own type,
represented here by `Option.none`. -/
def PyVal.typeOf : PyVal → Option PyType
  | .vInt _ => some .tInt
  | .vStr _ => some .tStr
  | .vBool _ => some .tBool
  | .vNone => none

/-- Python truthiness of a value (`bool(value)`): zero, the empty string,
False and None are falsy. -/
def PyVal.truthy : PyVal → Bool
  | .vInt n => n != 0
  | .vStr s => !s.isEmpty
  | .vBool b => b
  | .vNone => false

/-- Association-list lookup for string-keyed Python dicts. -/
def alookup {α : Type} : List (String × α) → String → Option α
  | [], _ => none
  | (k', v) :: rest, k => if k' = k then some v else alookup rest k

/-- Association-list update, keeping one binding per key
(`data[name] = value` on a dict). -/
def aset {α : Type} : List (String × α) → String → α → List (String × α)
  | [], k, v => [(k, v)]
  | (k', v') :: rest, k, v =>
      if k' = k then (k, v) :: rest else (k', v') :: aset rest k v

theorem alookup_aset_self {α : Type} (l : List (String × α)) (k : String) (v : α) :
    alookup (aset l k v) k = some v := by
  induction l with
  | nil => simp [aset, alookup]
  | cons hd tl ih =>
    obtain ⟨k', v'⟩ := hd
    by_cases h : k' = k
    · simp [aset, alookup, h]
    · simp [aset, alookup, h, ih]

theorem alookup_aset_ne {α : Type} (l : List (String × α)) (k k' : String) (v : α)
    (h : k' ≠ k) : alookup (aset l k v) k' = alookup l k' := by
  induction l with
  | nil => simp [aset, alookup, Ne.symm h]
  | cons hd tl ih =>
    obtain ⟨k₀, v₀⟩ := hd
    by_cases h0 : k₀ = k
    · subst h0
      simp [aset, alookup, Ne.symm h]
    · simp only [aset, if_neg h0, alookup]
      by_cases h1 : k₀ = k'
      · simp [h1]
      · simp [h1, ih]

/-! ## Claim C10 — type coercion in `validate_exec` is gated on truthiness

`validate_exec` (manager.py lines 428-431) walks the schema annotations and
coerces a provided value only when `(value := data.get(name)) and
(type(value) is not data_type)` holds: the walrus-plus-`and` makes the
coercion conditional on the truthiness of the value, not merely its
presence. -/

/-- One iteration of the type-coercion loop of `validate_exec`
(manager.py lines 429-431): if the provided value for the field is truthy
and its runtime type is not the declared type, replace it by
`convert value data_type`; otherwise leave the dict untouched. -/
def coerce_field (convert : PyVal → PyType → PyVal)
    (d : List (String × PyVal)) (nt : String × PyType) : List (String × PyVal) :=
  match alookup d nt.1 with
  | none => d
  | some v =>
      if v.truthy && !(v.typeOf == some nt.2) then aset d nt.1 (convert v nt.2) else d

/-- The type-coercion loop of `validate_exec` (manager.py lines 428-431),
folding `coerce_field` over the schema annotations.  The conversion
function `convert` (from `backend.util.type`, outside the verified file)
is taken as a parameter. -/
def coerce_loop (convert : PyVal → PyType → PyVal)
    (schemaFields : List (String × PyType))
    (data : List (String × PyVal)) : List (String × PyVal) :=
  schemaFields.foldl (coerce_field convert) data

theorem coerce_field_lookup_ne (convert : PyVal → PyType → PyVal)
    (d : List (String × PyVal)) (nt : String × PyType) (k : String)
    (h : nt.1 ≠ k) : alookup (coerce_field convert d nt) k = alookup d k := by
  unfold coerce_field
  cases halo : alookup d nt.1 with
  | none => rfl
  | some v =>
    by_cases hc : v.truthy && !(v.typeOf == some nt.2)
    · simp only [if_pos hc]
      exact alookup_aset_ne d nt.1 k (convert v nt.2) (Ne.symm h)
    · simp only [if_neg hc]

theorem coerce_field_falsy (convert : PyVal → PyType → PyVal)
    (d : List (String × PyVal)) (nt : String × PyType) (v : PyVal)
    (hv : alookup d nt.1 = some v) (hfalsy : v.truthy = false) :
    coerce_field convert d nt = d := by
  unfold coerce_field
  rw [hv]
  simp [hfalsy]

/-- Claim C10: in the coercion loop of `validate_exec`, a provided value
that is falsy (0, "", False, None) is never coerced, even when its runtime
type differs from the declared type: it is passed through unchanged to the
later schema checks. -/
theorem claim_C10 (convert : PyVal → PyType → PyVal)
    (schemaFields : List (String × PyType)) (data : List (String × PyVal))
    (name : String) (v : PyVal)
    (hv : alookup data name = some v)
    (hfalsy : v.truthy = false) :
    alookup (coerce_loop convert schemaFields data) name = some v := by
  induction schemaFields generalizing data with
  | nil => simpa [coerce_loop] using hv
  | cons hd tl ih =>
    simp only [coerce_loop, List.foldl_cons] at *
    by_cases hne : hd.1 = name
    · rw [coerce_field_falsy convert data hd v (by rw [hne]; exact hv) hfalsy]
      exact ih data hv
    · exact ih _ (by rw [coerce_field_lookup_ne convert data hd name hne]; exact hv)

/-- Witness for C10 at a concrete input: the falsy string value of field
"x" is left uncoerced even though its type (str) differs from the declared
type (int) and the conversion function would have replaced it. -/
theorem claim_C10_witness :
    alookup (coerce_loop (fun _ _ => PyVal.vInt 99) [("x", PyType.tInt)]
      [("x", PyVal.vStr "")]) "x" = some (PyVal.vStr "") :=
  claim_C10 (fun _ _ => PyVal.vInt 99) [("x", PyType.tInt)]
    [("x", PyVal.vStr "")] "x" (PyVal.vStr "") (by decide) (by decide)

/-! ## Claim C5 — credential lock release in `execute_node`

`execute_node` (manager.py lines 211-216) acquires one distributed lock
per declared credential field, but keeps only a single `creds_lock`
variable, overwritten on each loop iteration; the `finally` block
(lines 259-265) releases only that variable.  The SIGTERM handler
(`on_node_executor_sigterm`) releases all locks via `release_all_locks`. -/

/-- Exit paths of `execute_node` relevant to lock release: the input
pre-validation failure return, normal completion, a block-raised
exception, and termination of the worker by SIGTERM. -/
inductive ExitPath
  | validationFailure
  | completed
  | blockException
  | sigterm
deriving DecidableEq, Repr

/-- The credential acquisition loop of `execute_node` (manager.py lines
211-216): `creds_lock` is a single variable overwritten on each
iteration.  Returns the list of all locks acquired (one per credential
id, in order) and the final value of the `creds_lock` variable. -/
def acquire_credentials (cred_ids : List String) : List String × Option String :=
  cred_ids.foldl (fun acc cid => (acc.1 ++ [cid], some cid)) ([], none)

/-- The set of credential locks held when `execute_node` reaches the given
exit path.  Pre-validation failure (manager.py lines 178-184) returns
before the acquisition loop, so nothing is acquired there. -/
def execute_node_acquired (cred_ids : List String) (path : ExitPath) : List String :=
  match path with
  | .validationFailure => []
  | .completed => (acquire_credentials cred_ids).1
  | .blockException => (acquire_credentials cred_ids).1
  | .sigterm => (acquire_credentials cred_ids).1

/-- The credential locks released on the given exit path of
`execute_node`: the `finally` block (manager.py lines 259-265) releases
the single `creds_lock` variable if held; the SIGTERM handler (lines
511-522) instead calls `creds_manager.release_all_locks()`. -/
def execute_node_released (cred_ids : List String) (path : ExitPath) : List String :=
  match path with
  | .validationFailure => []
  | .sigterm => cred_ids
  | .completed => ((acquire_credentials cred_ids).2).toList
  | .blockException => ((acquire_credentials cred_ids).2).toList

theorem acquire_credentials_fst (cred_ids : List String) :
    (acquire_credentials cred_ids).1 = cred_ids := by
  suffices h : ∀ acc : List String × Option String,
      (cred_ids.foldl (fun acc cid => (acc.1 ++ [cid], some cid)) acc).1
        = acc.1 ++ cred_ids by
    simpa [acquire_credentials] using h ([], none)
  induction cred_ids with
  | nil => simp
  | cons hd tl ih => intro acc; simp [ih]

theorem acquire_credentials_snd_mem (cred_ids : List String) (l : String)
    (hl : (acquire_credentials cred_ids).2 = some l) : l ∈ cred_ids := by
  suffices h : ∀ (cids : List String) (acc : List String × Option String),
      (cids.foldl (fun acc cid => (acc.1 ++ [cid], some cid)) acc).2 = some l →
      l ∈ cids ∨ acc.2 = some l by
    rcases h cred_ids ([], none) hl with h1 | h2
    · exact h1
    · simp at h2
  intro cids
  induction cids with
  | nil => intro acc h; right; exact h
  | cons hd tl ih =>
    intro acc h
    rcases ih _ h with h1 | h2
    · exact Or.inl (List.mem_cons_of_mem hd h1)
    · simp only [Option.some.injEq] at h2
      exact Or.inl (h2 ▸ List.mem_cons_self hd tl)

/-- Counterexample to C5: a block declaring two credential fields.  On the
normal-completion exit path the first lock "c1" was acquired but is not
released — only the last-assigned `creds_lock` ("c2") is. -/
theorem claim_C5_counterexample :
    "c1" ∈ execute_node_acquired ["c1", "c2"] ExitPath.completed ∧
    "c1" ∉ execute_node_released ["c1", "c2"] ExitPath.completed := by
  decide

/-- Claim C5 (amended): on every exit path reached after the acquisition
loop, the most recently acquired credential lock is released; on the
SIGTERM path every acquired lock is released; and whenever the block
declares at most one credential field, every acquired lock is released on
every exit path. -/
theorem claim_C5_amended (cred_ids : List String) (path : ExitPath) :
    (∀ l : String, (acquire_credentials cred_ids).2 = some l →
        path ≠ ExitPath.validationFailure → l ∈ execute_node_released cred_ids path) ∧
    (∀ l ∈ execute_node_acquired cred_ids ExitPath.sigterm,
        l ∈ execute_node_released cred_ids ExitPath.sigterm) ∧
    (cred_ids.length ≤ 1 →
        ∀ l ∈ execute_node_acquired cred_ids path, l ∈ execute_node_released cred_ids path) := by
  refine ⟨?_, ?_, ?_⟩
  · intro l hl hpath
    cases path with
    | validationFailure => exact absurd rfl hpath
    | completed => simp [execute_node_released, hl]
    | blockException => simp [execute_node_released, hl]
    | sigterm =>
      simpa [execute_node_released] using acquire_credentials_snd_mem cred_ids l hl
  · intro l hl
    simpa [execute_node_released] using
      (by simpa [execute_node_acquired, acquire_credentials_fst] using hl : l ∈ cred_ids)
  · intro hlen l hl
    cases path with
    | validationFailure => simp [execute_node_acquired] at hl
    | sigterm =>
      simpa [execute_node_released] using
        (by simpa [execute_node_acquired, acquire_credentials_fst] using hl : l ∈ cred_ids)
    | completed =>
      rw [execute_node_acquired, acquire_credentials_fst] at hl
      cases cred_ids with
      | nil => simp at hl
      | cons c t =>
        cases t with
        | nil =>
          simp at hl
          simp [execute_node_released, acquire_credentials, hl]
        | cons c2 t2 =>
          simp only [List.length_cons] at hlen
          omega
    | blockException =>
      rw [execute_node_acquired, acquire_credentials_fst] at hl
      cases cred_ids with
      | nil => simp at hl
      | cons c t =>
        cases t with
        | nil =>
          simp at hl
          simp [execute_node_released, acquire_credentials, hl]
        | cons c2 t2 =>
          simp only [List.length_cons] at hlen
          omega

/-- Witness for the amended C5 at a concrete input: with the single
credential field "c1", the lock is acquired and released on the
block-exception exit path. -/
theorem claim_C5_amended_witness :
    "c1" ∈ execute_node_released ["c1"] ExitPath.blockException :=
  (claim_C5_amended ["c1"] ExitPath.blockException).2.2 (by decide) "c1" (by decide)

/-! ## Claims C6 and C7 — the observable effect trace of `execute_node`

`execute_node` (manager.py lines 127-273) is embedded as the sequence of
its observable effects: output rows pushed, status updates, the block
invocation, successor entries yielded through `_enqueue_next_nodes`, and
the final re-raise.  The block behaviour (outputs produced before normal
exhaustion or before raising) and the resolver are parameters. -/

/-- An observable effect of one `execute_node` run. -/
inductive Effect
  | pushOutput (name : String) (data : PyVal)
  | setStatus (s : ExecutionStatus)
  | blockInvoked
  | yieldEntry (node_exec_id : Nat)
deriving DecidableEq, Repr

/-- The effect trace of `execute_node` (manager.py lines 178-258).
`validation` is the result pair of `validate_exec(node, data,
resolve_input=False)`; `blockOutputs` are the `(name, value)` pairs the
block yields before either exhausting normally (`blockError = none`) or
raising (`blockError = some msg`); `resolver (name, value)` gives the
successor node-execution ids `_enqueue_next_nodes` returns for one output.
The returned flag records whether the run re-raises to the scheduler. -/
def execute_node_trace
    (validation : Option (List (String × PyVal)) × String)
    (blockOutputs : List (String × PyVal))
    (blockError : Option String)
    (resolver : String × PyVal → List Nat) : List Effect × Bool :=
  match validation.1 with
  | none =>
      ([Effect.pushOutput "error" (PyVal.vStr validation.2),
        Effect.setStatus ExecutionStatus.FAILED], false)
  | some _ =>
      (Effect.setStatus ExecutionStatus.RUNNING :: Effect.blockInvoked ::
        (blockOutputs.flatMap fun nv =>
          Effect.pushOutput nv.1 nv.2 :: (resolver nv).map Effect.yieldEntry) ++
        match blockError with
        | none => [Effect.setStatus ExecutionStatus.COMPLETED]
        | some msg =>
            Effect.pushOutput "error" (PyVal.vStr msg) ::
            Effect.setStatus ExecutionStatus.FAILED ::
            (resolver ("error", PyVal.vStr msg)).map Effect.yieldEntry,
       blockError.isSome)

/-- Claim C6: when pre-validation fails (`validate_exec` with
`resolve_input=False` returns None), `execute_node` pushes the error
message as the "error" output, marks the node execution FAILED, and
returns without invoking the block, without yielding any successor entry,
and without re-raising. -/
theorem claim_C6 (errMsg : String) (blockOutputs : List (String × PyVal))
    (blockError : Option String) (resolver : String × PyVal → List Nat) :
    (execute_node_trace (none, errMsg) blockOutputs blockError resolver).1
      = [Effect.pushOutput "error" (PyVal.vStr errMsg),
         Effect.setStatus ExecutionStatus.FAILED] ∧
    Effect.blockInvoked ∉ (execute_node_trace (none, errMsg) blockOutputs blockError resolver).1 ∧
    (∀ eid : Nat,
      Effect.yieldEntry eid ∉ (execute_node_trace (none, errMsg) blockOutputs blockError resolver).1) ∧
    (execute_node_trace (none, errMsg) blockOutputs blockError resolver).2 = false := by
  refine ⟨rfl, ?_, ?_, rfl⟩
  · simp [execute_node_trace]
  · intro eid
    simp [execute_node_trace]

/-- Witness for C6 at a concrete input: a failed validation with message
"missing input x" produces exactly the error output and FAILED status. -/
theorem claim_C6_witness :
    (execute_node_trace (none, "missing input x") [("out", PyVal.vInt 7)]
        (some "boom") (fun _ => [5])).1
      = [Effect.pushOutput "error" (PyVal.vStr "missing input x"),
         Effect.setStatus ExecutionStatus.FAILED] :=
  (claim_C6 "missing input x" [("out", PyVal.vInt 7)] (some "boom") (fun _ => [5])).1

/-- Claim C7: when the block raises during output iteration,
`execute_node` pushes the failure message as the "error" output,
transitions the node execution to FAILED, runs the data-flow resolver on
the synthesized ("error", message) output — yielding every successor entry
it returns — and then re-raises to the scheduler. -/
theorem claim_C7 (input : List (String × PyVal)) (blockName : String)
    (blockOutputs : List (String × PyVal)) (msg : String)
    (resolver : String × PyVal → List Nat) :
    (∃ pre : List Effect,
      (execute_node_trace (some input, blockName) blockOutputs (some msg) resolver).1
        = pre ++ Effect.pushOutput "error" (PyVal.vStr msg) ::
            Effect.setStatus ExecutionStatus.FAILED ::
            (resolver ("error", PyVal.vStr msg)).map Effect.yieldEntry) ∧
    (execute_node_trace (some input, blockName) blockOutputs (some msg) resolver).2 = true := by
  refine ⟨⟨Effect.setStatus ExecutionStatus.RUNNING :: Effect.blockInvoked ::
    (blockOutputs.flatMap fun nv =>
      Effect.pushOutput nv.1 nv.2 :: (resolver nv).map Effect.yieldEntry), ?_⟩, rfl⟩
  simp [execute_node_trace]

/-- Witness for C7 at a concrete input: a block that yields one output and
then raises "nope"; the trace ends with the error output, the FAILED
transition, the successor yielded from the error pin, and re-raises. -/
theorem claim_C7_witness :
    (∃ pre : List Effect,
      (execute_node_trace (some [("in", PyVal.vInt 1)], "Calc") [("out", PyVal.vInt 2)]
          (some "nope") (fun nv => if nv.1 = "error" then [9] else [])).1
        = pre ++ Effect.pushOutput "error" (PyVal.vStr "nope") ::
            Effect.setStatus ExecutionStatus.FAILED ::
            ((if ("error" : String) = "error" then [9] else []).map Effect.yieldEntry)) ∧
    (execute_node_trace (some [("in", PyVal.vInt 1)], "Calc") [("out", PyVal.vInt 2)]
        (some "nope") (fun nv => if nv.1 = "error" then [9] else [])).2 = true :=
  claim_C7 [("in", PyVal.vInt 1)] "Calc" [("out", PyVal.vInt 2)] "nope"
    (fun nv => if nv.1 = "error" then [9] else [])

/-! ## Claim C8 — `cancel_execution` leaves no live node execution

`ExecutionManager.cancel_execution` (manager.py lines 1071-1110) persists
TERMINATED on the graph execution, fetches every node execution of the run
still in QUEUED, RUNNING or INCOMPLETE, batch-updates them to TERMINATED
and broadcasts each.  The store operations it calls live in the
`DatabaseManager` (outside the verified file) and are modelled from the
specification. -/

/-- A node execution row as persisted by the store. -/
structure StoredNodeExec where
  node_exec_id : String
  graph_exec_id : String
  status : ExecutionStatus
deriving DecidableEq, Repr

/-- The persisted state `cancel_execution` operates on: a status per graph
execution id and the node execution rows. -/
structure Store where
  graphStatus : String → ExecutionStatus
  nodeExecs : List StoredNodeExec

/-- Modelled from the spec: `update_graph_execution_stats(graph_exec_id,
status)` persists the given status on the graph execution. -/
def Store.update_graph_execution_stats (s : Store) (gid : String)
    (st : ExecutionStatus) : Store :=
  { s with graphStatus := fun g => if g = gid then st else s.graphStatus g }

/-- Modelled from the spec: `get_node_execution_results(graph_exec_id,
statuses)` returns the node executions of the run whose status is in the
given list. -/
def Store.get_node_execution_results (s : Store) (gid : String)
    (statuses : List ExecutionStatus) : List StoredNodeExec :=
  s.nodeExecs.filter fun ne => decide (ne.graph_exec_id = gid ∧ ne.status ∈ statuses)

/-- Modelled from the spec: `update_node_execution_status_batch(ids,
status)` sets the status of every node execution whose id is listed. -/
def Store.update_node_execution_status_batch (s : Store) (ids : List String)
    (st : ExecutionStatus) : Store :=
  { s with nodeExecs := s.nodeExecs.map fun ne =>
      if ne.node_exec_id ∈ ids then { ne with status := st } else ne }

/-- The store mutations of `ExecutionManager.cancel_execution`
(manager.py lines 1091-1110): persist TERMINATED on the graph execution,
fetch the node executions still in QUEUED, RUNNING or INCOMPLETE,
batch-update them to TERMINATED, and broadcast each with its status set to
TERMINATED.  (Setting the cancel event and awaiting the graph worker,
lines 1080-1089, have no effect on the store itself.)  Returns the new
store and the list of broadcast node-execution updates. -/
def cancel_execution (s : Store) (graph_exec_id : String) :
    Store × List StoredNodeExec :=
  let s1 := s.update_graph_execution_stats graph_exec_id ExecutionStatus.TERMINATED
  let node_execs := s1.get_node_execution_results graph_exec_id
    [ExecutionStatus.QUEUED, ExecutionStatus.RUNNING, ExecutionStatus.INCOMPLETE]
  let s2 := s1.update_node_execution_status_batch
    (node_execs.map (fun ne => ne.node_exec_id)) ExecutionStatus.TERMINATED
  (s2, node_execs.map fun ne => { ne with status := ExecutionStatus.TERMINATED })

/-- Claim C8: after `cancel_execution` returns, the graph execution is
persisted as TERMINATED, no node execution of that run remains QUEUED,
RUNNING or INCOMPLETE, and every broadcast update carries TERMINATED for a
node execution of that run. -/
theorem claim_C8 (s : Store) (gid : String) :
    (cancel_execution s gid).1.graphStatus gid = ExecutionStatus.TERMINATED ∧
    (∀ ne ∈ (cancel_execution s gid).1.nodeExecs, ne.graph_exec_id = gid →
      ne.status ≠ ExecutionStatus.QUEUED ∧ ne.status ≠ ExecutionStatus.RUNNING ∧
      ne.status ≠ ExecutionStatus.INCOMPLETE) ∧
    (∀ ne ∈ (cancel_execution s gid).2,
      ne.status = ExecutionStatus.TERMINATED ∧ ne.graph_exec_id = gid) := by
  refine ⟨by simp [cancel_execution, Store.update_graph_execution_stats,
    Store.update_node_execution_status_batch], ?_, ?_⟩
  · intro ne hne hgid
    simp only [cancel_execution, Store.update_node_execution_status_batch] at hne
    rw [List.mem_map] at hne
    obtain ⟨orig, horig, heq⟩ := hne
    by_cases hmem : orig.node_exec_id ∈
        ((Store.update_graph_execution_stats s gid ExecutionStatus.TERMINATED).get_node_execution_results
          gid [ExecutionStatus.QUEUED, ExecutionStatus.RUNNING,
               ExecutionStatus.INCOMPLETE]).map (fun ne => ne.node_exec_id)
    · rw [if_pos hmem] at heq
      rw [← heq]
      exact ⟨by simp, by simp, by simp⟩
    · rw [if_neg hmem] at heq
      subst heq
      refine ⟨?_, ?_, ?_⟩ <;> intro hst <;> apply hmem <;>
        exact List.mem_map_of_mem _ (by
          simp only [Store.get_node_execution_results,
            Store.update_graph_execution_stats, List.mem_filter]
          exact ⟨horig, by simp [hgid, hst]⟩)
  · intro ne hne
    simp only [cancel_execution, List.mem_map] at hne
    obtain ⟨orig, horig, heq⟩ := hne
    simp only [Store.get_node_execution_results, List.mem_filter,
      decide_eq_true_eq] at horig
    exact ⟨by rw [← heq], by rw [← heq]; exact horig.2.1⟩

/-- Witness for C8 at a concrete store holding one QUEUED node execution
of the cancelled run and one RUNNING node execution of another run. -/
theorem claim_C8_witness :
    (cancel_execution ⟨fun _ => ExecutionStatus.RUNNING,
        [⟨"n1", "g", ExecutionStatus.QUEUED⟩,
         ⟨"n2", "g2", ExecutionStatus.RUNNING⟩]⟩ "g").1.graphStatus "g"
      = ExecutionStatus.TERMINATED ∧
    (⟨"n1", "g", ExecutionStatus.TERMINATED⟩ : StoredNodeExec).status
        ≠ ExecutionStatus.QUEUED ∧
      (⟨"n1", "g", ExecutionStatus.TERMINATED⟩ : StoredNodeExec).status
        ≠ ExecutionStatus.RUNNING ∧
      (⟨"n1", "g", ExecutionStatus.TERMINATED⟩ : StoredNodeExec).status
        ≠ ExecutionStatus.INCOMPLETE := by
  refine ⟨(claim_C8 _ "g").1, (claim_C8 ⟨fun _ => ExecutionStatus.RUNNING,
    [⟨"n1", "g", ExecutionStatus.QUEUED⟩,
     ⟨"n2", "g2", ExecutionStatus.RUNNING⟩]⟩ "g").2.1
    ⟨"n1", "g", ExecutionStatus.TERMINATED⟩ ?_ rfl⟩
  simp [cancel_execution, Store.update_node_execution_status_batch,
    Store.get_node_execution_results, Store.update_graph_execution_stats]

/-! ## Claim C9 — `add_execution` and starting nodes

`ExecutionManager.add_execution` (manager.py lines 984-1069) iterates the
starting nodes of the graph: NOTE blocks are skipped via `continue`; INPUT
blocks extract `data[node.input_default["name"]]` into `{"value": ...}`;
WEBHOOK and WEBHOOK_MANUAL blocks with a webhook id require the payload
key; the resulting input is validated, a validation failure raising its
own error.  Only after the loop does the "no starting nodes" check run,
and the graph execution is created and enqueued only after it passes. -/

/-- Block types (`backend.data.block.BlockType`). -/
inductive BlockType
  | STANDARD
  | INPUT
  | OUTPUT
  | WEBHOOK
  | WEBHOOK_MANUAL
  | NOTE
  | AGENT
deriving DecidableEq, Repr

/-- A starting node of the graph as `add_execution` consumes it: its id,
the block type, the node input defaults, and the optional webhook id. -/
structure StartNode where
  id : String
  block_type : BlockType
  input_default : List (String × PyVal)
  webhook_id : Option String
deriving DecidableEq, Repr

/-- The error message raised when no starting node survives the loop
(manager.py lines 1035-1038). -/
def noStartingNodesError : String :=
  "No starting nodes found for the graph, make sure an AgentInput or blocks with no inbound links are present as starting nodes."

/-- The per-node input construction of `add_execution` (manager.py lines
1004-1027) for a non-NOTE starting node: INPUT blocks extract the request
value named by `input_default["name"]` when that name is truthy and
present; WEBHOOK and WEBHOOK_MANUAL blocks with a webhook id require
`data["webhook_" + webhook_id + "_payload"]` and fail if it is absent. -/
def build_start_input (node : StartNode) (data : List (String × PyVal)) :
    Except String (List (String × PyVal)) :=
  let input1 : List (String × PyVal) :=
    if node.block_type = BlockType.INPUT then
      match alookup node.input_default "name" with
      | some (PyVal.vStr nm) =>
          if !nm.isEmpty then
            match alookup data nm with
            | some v => [("value", v)]
            | none => []
          else []
      | _ => []
    else []
  match node.block_type, node.webhook_id with
  | BlockType.WEBHOOK, some wid =>
      (match alookup data ("webhook_" ++ wid ++ "_payload") with
       | none => Except.error ("Node #" ++ node.id ++ " webhook payload is missing")
       | some payload => Except.ok [("payload", payload)])
  | BlockType.WEBHOOK_MANUAL, some wid =>
      (match alookup data ("webhook_" ++ wid ++ "_payload") with
       | none => Except.error ("Node #" ++ node.id ++ " webhook payload is missing")
       | some payload => Except.ok [("payload", payload)])
  | _, _ => Except.ok input1

/-- The starting-node loop of `add_execution` (manager.py lines 1002-1033):
NOTE blocks are skipped; each remaining node gets its input built and
validated (the validation outcome function stands for `validate_exec`,
whose pair result is `(None, error)` on failure); a failure raises that
validation error immediately.  Returns the collected `(node_id,
validated_input)` pairs. -/
def collect_nodes_input
    (validate : StartNode → List (String × PyVal) →
      Option (List (String × PyVal)) × String) :
    List StartNode → List (String × PyVal) →
      Except String (List (String × List (String × PyVal)))
  | [], _ => Except.ok []
  | node :: rest, data =>
      if node.block_type = BlockType.NOTE then collect_nodes_input validate rest data
      else
        match build_start_input node data with
        | Except.error e => Except.error e
        | Except.ok inp =>
            match validate node inp with
            | (none, err) => Except.error err
            | (some v, _) =>
                match collect_nodes_input validate rest data with
                | Except.error e => Except.error e
                | Except.ok tail => Except.ok ((node.id, v) :: tail)

/-- `add_execution` (manager.py lines 984-1069) up to the point where the
graph execution is created: the collected starting inputs, with the
"no starting nodes" failure when the loop leaves them empty.  A
`Except.error` result means the call raised before
`create_graph_execution` and `queue.add`, so nothing is created or
enqueued. -/
def add_execution_model
    (validate : StartNode → List (String × PyVal) →
      Option (List (String × PyVal)) × String)
    (starting_nodes : List StartNode) (data : List (String × PyVal)) :
    Except String (List (String × List (String × PyVal))) :=
  match collect_nodes_input validate starting_nodes data with
  | Except.error e => Except.error e
  | Except.ok [] => Except.error noStartingNodesError
  | Except.ok l => Except.ok l

/-- Counterexample to C9: a graph with a single INPUT starting node whose
input fails validation.  No starting node produces a valid input, yet the
call fails with the validation error "boom", not with the "no starting
nodes" error the claim asserts. -/
theorem claim_C9_counterexample :
    add_execution_model (fun _ _ => (none, "boom"))
        [⟨"n1", BlockType.INPUT, [("name", PyVal.vStr "x")], none⟩]
        [("x", PyVal.vInt 1)]
      = Except.error "boom" ∧ "boom" ≠ noStartingNodesError := by
  refine ⟨rfl, ?_⟩
  decide

/-- Claim C9 (amended): when every starting node is a NOTE block (or there
are none), `add_execution` fails with the "no starting nodes" error;
NOTE starting nodes are always skipped, so every collected starting input
comes from a non-NOTE node; and any error produced inside the
starting-node loop (such as a validation failure) is raised verbatim —
in every failure case the result is an error, so no graph execution is
created or enqueued. -/
theorem claim_C9_amended
    (validate : StartNode → List (String × PyVal) →
      Option (List (String × PyVal)) × String)
    (starting_nodes : List StartNode) (data : List (String × PyVal)) :
    ((∀ n ∈ starting_nodes, n.block_type = BlockType.NOTE) →
      add_execution_model validate starting_nodes data
        = Except.error noStartingNodesError) ∧
    (∀ l, collect_nodes_input validate starting_nodes data = Except.ok l →
      ∀ p ∈ l, ∃ n ∈ starting_nodes, n.id = p.1 ∧ n.block_type ≠ BlockType.NOTE) ∧
    (∀ e, collect_nodes_input validate starting_nodes data = Except.error e →
      add_execution_model validate starting_nodes data = Except.error e) := by
  refine ⟨?_, ?_, ?_⟩
  · intro hall
    have hok : collect_nodes_input validate starting_nodes data = Except.ok [] := by
      induction starting_nodes with
      | nil => rfl
      | cons hd tl ih =>
        have hhd : hd.block_type = BlockType.NOTE := hall hd (by simp)
        simp only [collect_nodes_input, if_pos hhd]
        exact ih fun n hn => hall n (by simp [hn])
    simp [add_execution_model, hok]
  · induction starting_nodes with
    | nil =>
      intro l hl p hp
      simp only [collect_nodes_input] at hl
      cases hl
      simp at hp
    | cons hd tl ih =>
      intro l hl p hp
      by_cases hnote : hd.block_type = BlockType.NOTE
      · simp only [collect_nodes_input, if_pos hnote] at hl
        obtain ⟨n, hn, hni⟩ := ih l hl p hp
        exact ⟨n, List.mem_cons_of_mem hd hn, hni⟩
      · simp only [collect_nodes_input, if_neg hnote] at hl
        split at hl
        · cases hl
        · split at hl
          · cases hl
          · split at hl
            · cases hl
            · rename_i v _ tail htail
              cases hl
              rcases List.mem_cons.mp hp with hp1 | hp2
              · exact ⟨hd, List.mem_cons_self hd tl, by rw [hp1], hnote⟩
              · obtain ⟨n, hn, hni⟩ := ih tail htail p hp2
                exact ⟨n, List.mem_cons_of_mem hd hn, hni⟩
  · intro e he
    simp [add_execution_model, he]

/-- Witness for the amended C9 at concrete inputs: a graph whose two
starting nodes are both NOTE blocks fails with the "no starting nodes"
error. -/
theorem claim_C9_amended_witness :
    add_execution_model (fun _ _ => (some [], ""))
        [⟨"a", BlockType.NOTE, [], none⟩, ⟨"b", BlockType.NOTE, [], none⟩] []
      = Except.error noStartingNodesError :=
  (claim_C9_amended (fun _ _ => (some [], ""))
      [⟨"a", BlockType.NOTE, [], none⟩, ⟨"b", BlockType.NOTE, [], none⟩] []).1
    (by decide)

/-! ## Claims C1 and C2 — the graph scheduler main loop

`Executor._on_graph_execution` (manager.py lines 700-864) is embedded as a
fuel-indexed recursion over the ready-queue, accumulating the observable
side effects of the main thread.  The charge function, the successor
entries produced by dispatched workers, and the cancellation observations
are parameters.  The `finally` block (lines 849-864) is embedded
separately as `apply_finally`, because its `return` supersedes the early
returns of the `try` block: it recomputes the status from the error alone
(FAILED on error, otherwise COMPLETED), discarding the TERMINATED value
the loop returned. -/

/-- A ready-queue entry (`NodeExecutionEntry`), reduced to the fields the
scheduler loop reads. -/
structure GraphEntry where
  node_exec_id : String
  node_id : String
deriving DecidableEq, Repr

/-- `backend.util.exceptions.InsufficientBalanceError`: carries the user
balance and the attempted debit amount (used by
`_handle_low_balance_notif` as `e.balance - e.amount`). -/
structure InsufficientBalanceError where
  msg : String
  balance : Int
  amount : Int
deriving DecidableEq, Repr

/-- Notification types consumed by the executor
(`backend.data.notifications.NotificationType`). -/
inductive NotifType
  | AGENT_RUN
  | LOW_BALANCE
deriving DecidableEq, Repr

/-- The LOW_BALANCE notification payload
(`backend.data.notifications.LowBalanceData` wrapped in a
`NotificationEventDTO`). -/
structure LowBalanceNotification where
  ntype : NotifType
  current_balance : Int
  billing_page_link : String
  shortfall : Int
  agent_name : String
deriving DecidableEq, Repr

/-- `Executor._handle_low_balance_notif` (manager.py lines 903-927):
builds the LOW_BALANCE event with `shortfall = e.balance - e.amount`,
`current_balance = exec_stats.cost` (the cost accumulated by the run, not
the user balance), the billing page link under the configured base url,
and the agent name from the graph metadata. -/
def handle_low_balance_notif (agent_name base_url : String)
    (exec_stats_cost : Int) (e : InsufficientBalanceError) :
    LowBalanceNotification :=
  { ntype := NotifType.LOW_BALANCE
    current_balance := exec_stats_cost
    billing_page_link := base_url ++ "/profile/credits"
    shortfall := e.balance - e.amount
    agent_name := agent_name }

/-- An observable effect of the scheduler main loop. -/
inductive GEffect
  | upsertOutput (node_exec_id : String) (name : String) (data : String)
  | updateNodeStatus (node_exec_id : String) (st : ExecutionStatus)
  | queueNotification (n : LowBalanceNotification)
  | dispatch (node_exec_id : String)
deriving DecidableEq, Repr

/-- Whether an effect queues a notification. -/
def isNotifEffect : GEffect → Bool
  | GEffect.queueNotification _ => true
  | _ => false

/-- The environment of one `_on_graph_execution` run.  `charge e cnt cost`
models `_charge_usage` (manager.py lines 653-698) for entry `e` with the
incoming execution counter and accumulated `execution_stats.cost`: it
returns the new accumulated cost (debits are added to the stats even when
a later debit raises) and either the new counter or the
`InsufficientBalanceError` raised by `spend_credits`.  `succ e` gives the
successor entries the node worker adds to the queue for entry `e`;
`cancelAt step` tells whether the cancel event is observed at the given
loop step. -/
structure SchedulerCtx where
  charge : GraphEntry → Nat → Int → Int × Except InsufficientBalanceError Nat
  succ : GraphEntry → List GraphEntry
  cancelAt : Nat → Bool
  agent_name : String
  base_url : String

/-- The result of the `try` block of `_on_graph_execution`: the
accumulated effects, the value of the `execution_status` variable, the
caught error, and the accumulated `execution_stats.cost`. -/
structure LoopResult where
  effects : List GEffect
  status : ExecutionStatus
  error : Option InsufficientBalanceError
  cost : Int
deriving DecidableEq, Repr

/-- The main loop of `_on_graph_execution` (manager.py lines 774-844), as
executed by the scheduler main thread: while the queue is nonempty, check
the cancel event (TERMINATED early return), pop an entry, charge usage
(on `InsufficientBalanceError`: write the "error" output, mark the node
execution FAILED, queue the LOW_BALANCE notification built from the
accumulated cost, and abort with the error), otherwise dispatch the entry
and continue with the successors its worker adds.  `fuel` bounds the
number of iterations; `none` means the bound was hit. -/
def graph_loop (c : SchedulerCtx) :
    Nat → List GraphEntry → Nat → Nat → Int → List GEffect →
    Option LoopResult
  | 0, _, _, _, _, _ => none
  | _ + 1, [], _, _, cost, effects =>
      some ⟨effects, ExecutionStatus.RUNNING, none, cost⟩
  | fuel + 1, e :: rest, step, cnt, cost, effects =>
      if c.cancelAt step then
        some ⟨effects, ExecutionStatus.TERMINATED, none, cost⟩
      else
        match c.charge e (cnt + 1) cost with
        | (cost', Except.error err) =>
            some ⟨effects ++
                [GEffect.upsertOutput e.node_exec_id "error" err.msg,
                 GEffect.updateNodeStatus e.node_exec_id ExecutionStatus.FAILED,
                 GEffect.queueNotification
                   (handle_low_balance_notif c.agent_name c.base_url cost' err)],
              ExecutionStatus.FAILED, some err, cost'⟩
        | (cost', Except.ok cnt') =>
            graph_loop c fuel (rest ++ c.succ e) (step + 1) cnt' cost'
              (effects ++ [GEffect.dispatch e.node_exec_id])

/-- The `finally` block of `_on_graph_execution` (manager.py lines
849-864): its trailing `return` supersedes any `return` of the `try`
block, and it reassigns `execution_status` from the error alone — FAILED
when an error was caught, otherwise COMPLETED — regardless of the status
the loop had set. -/
def apply_finally (r : LoopResult) : LoopResult :=
  match r.error with
  | some _ => { r with status := ExecutionStatus.FAILED }
  | none => { r with status := ExecutionStatus.COMPLETED }

/-- `_on_graph_execution` as observed by its caller `on_graph_execution`
(which persists the returned status): the `try` block result passed
through the `finally` block. -/
def on_graph_execution_model (c : SchedulerCtx) (queue : List GraphEntry)
    (fuel : Nat) : Option LoopResult :=
  (graph_loop c fuel queue 0 0 0 []).map apply_finally

/-- A run in which the cancel event is set from the start and no error
occurs: every charge succeeds, no successors, cancellation observed at
every step. -/
def cancelCtx : SchedulerCtx :=
  ⟨fun _ cnt cost => (cost, Except.ok cnt), fun _ => [], fun _ => true,
   "MyAgent", "https://app"⟩

/-- Claim C1, evaluated at the failing input: in a run whose cancel event
is observed before the first dispatch and in which no error occurs, the
`try` block of `_on_graph_execution` returns TERMINATED, but the `finally`
block (manager.py lines 849-856) unconditionally reassigns the status to
COMPLETED before its own `return`, so the scheduler returns — and
`on_graph_execution` persists — COMPLETED instead of TERMINATED. -/
theorem claim_C1 :
    (graph_loop cancelCtx 4 [⟨"ne1", "n1"⟩] 0 0 0 []).map LoopResult.status
      = some ExecutionStatus.TERMINATED ∧
    (on_graph_execution_model cancelCtx [⟨"ne1", "n1"⟩] 4).map LoopResult.status
      = some ExecutionStatus.COMPLETED := by
  constructor <;> rfl

theorem graph_loop_insufficient (c : SchedulerCtx) :
    ∀ (fuel : Nat) (queue : List GraphEntry) (step cnt : Nat) (cost : Int)
      (acc : List GEffect) (r : LoopResult) (err : InsufficientBalanceError),
    (∀ x ∈ acc, isNotifEffect x = false) →
    graph_loop c fuel queue step cnt cost acc = some r →
    r.error = some err →
    r.status = ExecutionStatus.FAILED ∧
    ∃ (pre : List GEffect) (id : String),
      (∀ x ∈ pre, isNotifEffect x = false) ∧
      r.effects = pre ++
        [GEffect.upsertOutput id "error" err.msg,
         GEffect.updateNodeStatus id ExecutionStatus.FAILED,
         GEffect.queueNotification
           (handle_low_balance_notif c.agent_name c.base_url r.cost err)] := by
  intro fuel
  induction fuel with
  | zero => intro queue step cnt cost acc r err _ hrun; cases hrun
  | succ fuel ih =>
    intro queue step cnt cost acc r err hacc hrun herr
    cases queue with
    | nil =>
      simp only [graph_loop] at hrun
      cases hrun
      cases herr
    | cons e rest =>
      simp only [graph_loop] at hrun
      by_cases hcancel : c.cancelAt step
      · rw [if_pos hcancel] at hrun
        cases hrun
        cases herr
      · rw [if_neg hcancel] at hrun
        cases hcharge : c.charge e (cnt + 1) cost with
        | mk cost' outcome =>
          rw [hcharge] at hrun
          cases outcome with
          | error err0 =>
            cases hrun
            cases herr
            exact ⟨rfl, acc, e.node_exec_id, hacc, rfl⟩
          | ok cnt' =>
            refine ih _ _ _ _ _ r err ?_ hrun herr
            intro x hx
            rcases List.mem_append.mp hx with hx1 | hx2
            · exact hacc x hx1
            · simp only [List.mem_singleton] at hx2
              rw [hx2]
              rfl

/-- Claim C2 (amended): whenever charging a node dispatch raises
`InsufficientBalanceError`, the scheduler writes the error as that node
execution's "error" output, transitions it to FAILED, queues exactly one
LOW_BALANCE notification — whose payload carries `shortfall = balance -
amount`, the agent name, the billing page link, and, in its
`current_balance` field, the cost accumulated by the run (not the user's
current balance) — and the whole run ends FAILED. -/
theorem claim_C2 (c : SchedulerCtx) (queue : List GraphEntry) (fuel : Nat)
    (r : LoopResult) (err : InsufficientBalanceError)
    (hrun : on_graph_execution_model c queue fuel = some r)
    (herr : r.error = some err) :
    r.status = ExecutionStatus.FAILED ∧
    r.effects.countP (fun x => isNotifEffect x) = 1 ∧
    (∃ (pre : List GEffect) (id : String),
      r.effects = pre ++
        [GEffect.upsertOutput id "error" err.msg,
         GEffect.updateNodeStatus id ExecutionStatus.FAILED,
         GEffect.queueNotification
           (handle_low_balance_notif c.agent_name c.base_url r.cost err)]) ∧
    (handle_low_balance_notif c.agent_name c.base_url r.cost err).shortfall
      = err.balance - err.amount ∧
    (handle_low_balance_notif c.agent_name c.base_url r.cost err).billing_page_link
      = c.base_url ++ "/profile/credits" ∧
    (handle_low_balance_notif c.agent_name c.base_url r.cost err).agent_name
      = c.agent_name ∧
    (handle_low_balance_notif c.agent_name c.base_url r.cost err).current_balance
      = r.cost := by
  unfold on_graph_execution_model at hrun
  cases hloop : graph_loop c fuel queue 0 0 0 [] with
  | none => rw [hloop] at hrun; cases hrun
  | some r0 =>
    rw [hloop] at hrun
    obtain ⟨eff0, st0, err0, cost0⟩ := r0
    cases err0 with
    | none =>
      have hr : r = ⟨eff0, ExecutionStatus.COMPLETED, none, cost0⟩ := by
        simpa [apply_finally] using hrun.symm
      rw [hr] at herr
      cases herr
    | some e0 =>
      have hr : r = ⟨eff0, ExecutionStatus.FAILED, some e0, cost0⟩ := by
        simpa [apply_finally] using hrun.symm
      have he0 : e0 = err := by
        rw [hr] at herr
        exact Option.some.inj herr
      subst he0
      obtain ⟨hst, pre, id, hpre, heff⟩ :=
        graph_loop_insufficient c fuel queue 0 0 0 []
          ⟨eff0, st0, some e0, cost0⟩ e0 (by simp) hloop rfl
      refine ⟨by rw [hr], ?_, ⟨pre, id, by rw [hr]; exact heff⟩, rfl, rfl, rfl, rfl⟩
      rw [hr]
      show eff0.countP (fun x => isNotifEffect x) = 1
      have heff0 : eff0 = pre ++
          [GEffect.upsertOutput id "error" e0.msg,
           GEffect.updateNodeStatus id ExecutionStatus.FAILED,
           GEffect.queueNotification
             (handle_low_balance_notif c.agent_name c.base_url cost0 e0)] := heff
      rw [heff0, List.countP_append]
      have h1 : pre.countP (fun x => isNotifEffect x) = 0 :=
        List.countP_eq_zero.mpr (by intro a ha; simp [hpre a ha])
      rw [h1]
      rfl

/-- Counterexample to C2 as stated: at a concrete run whose charge raises
`InsufficientBalanceError` with user balance 5 and attempted amount 10
while the run has accumulated cost 0, the queued notification's
`current_balance` field is 0 — the run's accumulated cost — and not 5,
the user's current balance carried by the exception. -/
theorem claim_C2_counterexample :
    on_graph_execution_model
        ⟨fun _ _ cost => (cost, Except.error ⟨"Insufficient balance", 5, 10⟩),
         fun _ => [], fun _ => false, "MyAgent", "https://app"⟩
        [⟨"ne1", "n1"⟩] 2
      = some ⟨[GEffect.upsertOutput "ne1" "error" "Insufficient balance",
               GEffect.updateNodeStatus "ne1" ExecutionStatus.FAILED,
               GEffect.queueNotification
                 ⟨NotifType.LOW_BALANCE, 0, "https://app/profile/credits",
                  -5, "MyAgent"⟩],
              ExecutionStatus.FAILED, some ⟨"Insufficient balance", 5, 10⟩, 0⟩ ∧
    (0 : Int) ≠ 5 := by
  refine ⟨?_, by decide⟩
  rfl

/-- Witness for the amended C2 at a concrete run: one entry whose charge
raises with balance 3 and amount 7 after accumulating cost 2. -/
theorem claim_C2_witness :
    (⟨[GEffect.upsertOutput "ne9" "error" "low" ,
       GEffect.updateNodeStatus "ne9" ExecutionStatus.FAILED,
       GEffect.queueNotification
         ⟨NotifType.LOW_BALANCE, 2, "https://b/profile/credits", -4, "A2"⟩],
      ExecutionStatus.FAILED, some ⟨"low", 3, 7⟩, 2⟩ : LoopResult).status
      = ExecutionStatus.FAILED := by
  refine (claim_C2
    ⟨fun _ _ cost => (cost + 2, Except.error ⟨"low", 3, 7⟩),
     fun _ => [], fun _ => false, "A2", "https://b"⟩
    [⟨"ne9", "n9"⟩] 2 _ ⟨"low", 3, 7⟩ rfl rfl).1

/-! ## Claim C4 — per-node serialization of node executions

The scheduler main loop (manager.py lines 781-788, 823-827) keeps
`running_executions : dict[node_id, AsyncResult]`; before dispatching an
entry it waits for any unfinished in-flight execution of the same node and
then replaces the map entry with the new task.  The completion callback
(lines 743-745) pops the entry of its node once the task has finished
(CPython invokes the callback before the result event is set, so the pop
always precedes any later dispatch of the same node).  This is embedded
as a labelled transition system over the set of submitted tasks and the
`running_executions` map. -/

/-- A task submitted to the node-worker pool: its id, the node it
executes, and whether it has finished. -/
structure SchedTask where
  tid : Nat
  node_id : String
  finished : Bool
deriving DecidableEq, Repr

/-- The scheduler state: every task submitted so far, the
`running_executions` map, and a fresh-id counter. -/
structure SchedState where
  tasks : List SchedTask
  runningMap : String → Option Nat
  nextId : Nat

/-- The initial scheduler state: no tasks, empty map. -/
def SchedState.initState : SchedState := ⟨[], fun _ => none, 0⟩

/-- Dispatching a node (manager.py lines 823-827): submit a fresh
unfinished task and store it in `running_executions[node_id]`. -/
def SchedState.dispatchNode (s : SchedState) (n : String) : SchedState :=
  { tasks := s.tasks ++ [⟨s.nextId, n, false⟩]
    runningMap := fun x => if x = n then some s.nextId else s.runningMap x
    nextId := s.nextId + 1 }

/-- A node worker finishing its task. -/
def SchedState.finishTask (s : SchedState) (tid : Nat) : SchedState :=
  { s with tasks := s.tasks.map fun t =>
      if t.tid = tid then ⟨t.tid, t.node_id, true⟩ else t }

/-- The completion callback (manager.py line 745) popping
`running_executions[node_id]`. -/
def SchedState.reapNode (s : SchedState) (n : String) : SchedState :=
  { s with runningMap := fun x => if x = n then none else s.runningMap x }

/-- The scheduler transitions.  `dispatch` carries the wait of manager.py
lines 782-788: at the instant of submission, any task the map still holds
for this node has finished (`execution.wait()` returns only on
completion).  `reap` runs only for a finished task that the map still
points at, matching the CPython callback ordering. -/
inductive SchedStep : SchedState → SchedState → Prop
  | dispatch {s : SchedState} (n : String)
      (hwait : ∀ t ∈ s.tasks, s.runningMap n = some t.tid → t.finished = true) :
      SchedStep s (s.dispatchNode n)
  | finish {s : SchedState} (tid : Nat) : SchedStep s (s.finishTask tid)
  | reap {s : SchedState} (n : String) (tid : Nat)
      (hmap : s.runningMap n = some tid)
      (hfin : ∀ t ∈ s.tasks, t.tid = tid → t.finished = true) :
      SchedStep s (s.reapNode n)

/-- States reachable by the scheduler of one graph run. -/
inductive SchedReachable : SchedState → Prop
  | init : SchedReachable SchedState.initState
  | step {s s' : SchedState} :
      SchedReachable s → SchedStep s s' → SchedReachable s'

/-- The scheduler invariant: task ids are fresh, distinct ids mean
distinct tasks, and every unfinished task is registered in
`running_executions` under its node. -/
def SchedInv (s : SchedState) : Prop :=
  (∀ t ∈ s.tasks, t.tid < s.nextId) ∧
  (∀ t1 ∈ s.tasks, ∀ t2 ∈ s.tasks, t1.tid = t2.tid → t1 = t2) ∧
  (∀ t ∈ s.tasks, t.finished = false → s.runningMap t.node_id = some t.tid)

theorem sched_inv_step {s s' : SchedState} (hinv : SchedInv s)
    (hstep : SchedStep s s') : SchedInv s' := by
  obtain ⟨inv1, inv2, inv3⟩ := hinv
  cases hstep with
  | dispatch n hwait =>
    refine ⟨?_, ?_, ?_⟩
    · intro t ht
      simp only [SchedState.dispatchNode, List.mem_append,
        List.mem_singleton] at ht
      rcases ht with ht | ht
      · exact Nat.lt_succ_of_lt (inv1 t ht)
      · rw [ht]
        exact Nat.lt_succ_self _
    · intro t1 h1 t2 h2 htid
      simp only [SchedState.dispatchNode, List.mem_append,
        List.mem_singleton] at h1 h2
      rcases h1 with h1 | h1 <;> rcases h2 with h2 | h2
      · exact inv2 t1 h1 t2 h2 htid
      · exfalso
        have ha := inv1 t1 h1
        have hb : t2.tid = s.nextId := by rw [h2]
        omega
      · exfalso
        have ha := inv1 t2 h2
        have hb : t1.tid = s.nextId := by rw [h1]
        omega
      · rw [h1, h2]
    · intro t ht hf
      simp only [SchedState.dispatchNode, List.mem_append,
        List.mem_singleton] at ht
      show (if t.node_id = n then some s.nextId else s.runningMap t.node_id)
        = some t.tid
      rcases ht with ht | ht
      · by_cases hn : t.node_id = n
        · exfalso
          have hmap := inv3 t ht hf
          rw [hn] at hmap
          have := hwait t ht hmap
          rw [hf] at this
          simp at this
        · rw [if_neg hn]
          exact inv3 t ht hf
      · rw [ht]
        simp
  | finish tid =>
    refine ⟨?_, ?_, ?_⟩
    · intro t ht
      simp only [SchedState.finishTask, List.mem_map] at ht
      obtain ⟨t0, ht0, heq⟩ := ht
      rw [← heq]
      by_cases h : t0.tid = tid
      · simp only [if_pos h]
        exact inv1 t0 ht0
      · simp only [if_neg h]
        exact inv1 t0 ht0
    · intro t1 h1 t2 h2 htid
      simp only [SchedState.finishTask, List.mem_map] at h1 h2
      obtain ⟨a, ha, hae⟩ := h1
      obtain ⟨b, hb, hbe⟩ := h2
      have h1t : t1.tid = a.tid := by
        rw [← hae]
        by_cases h : a.tid = tid <;> simp [h]
      have h2t : t2.tid = b.tid := by
        rw [← hbe]
        by_cases h : b.tid = tid <;> simp [h]
      have hab : a = b := inv2 a ha b hb (by omega)
      rw [← hae, ← hbe, hab]
    · intro t ht hf
      simp only [SchedState.finishTask, List.mem_map] at ht
      obtain ⟨t0, ht0, heq⟩ := ht
      rw [← heq] at hf ⊢
      by_cases h : t0.tid = tid
      · rw [if_pos h] at hf
        simp at hf
      · rw [if_neg h] at hf ⊢
        exact inv3 t0 ht0 hf
  | reap n tid hmap hfin =>
    refine ⟨fun t ht => inv1 t ht, fun t1 h1 t2 h2 => inv2 t1 h1 t2 h2, ?_⟩
    · intro t ht hf
      show (if t.node_id = n then none else s.runningMap t.node_id) = some t.tid
      by_cases h : t.node_id = n
      · exfalso
        have hm := inv3 t ht hf
        rw [h, hmap] at hm
        have htid : t.tid = tid := (Option.some.inj hm).symm
        have := hfin t ht htid
        rw [hf] at this
        simp at this
      · rw [if_neg h]
        exact inv3 t ht hf

theorem sched_inv_reachable {s : SchedState} (h : SchedReachable s) :
    SchedInv s := by
  induction h with
  | init =>
    refine ⟨?_, ?_, ?_⟩
    · intro t ht
      simp [SchedState.initState] at ht
    · intro t1 h1
      simp [SchedState.initState] at h1
    · intro t ht
      simp [SchedState.initState] at ht
  | step _ hstep ih => exact sched_inv_step ih hstep

/-- Claim C4: in every reachable scheduler state, no two distinct tasks of
the same node are simultaneously unfinished — the dispatch wait plus the
callback discipline serialize the node executions of each node, so at no
instant are two node executions of one node both RUNNING within a graph
run (a RUNNING node execution lives inside an unfinished task). -/
theorem claim_C4 {s : SchedState} (h : SchedReachable s)
    (t1 t2 : SchedTask) (h1 : t1 ∈ s.tasks) (h2 : t2 ∈ s.tasks)
    (hf1 : t1.finished = false) (hf2 : t2.finished = false)
    (hnode : t1.node_id = t2.node_id) : t1 = t2 := by
  obtain ⟨inv1, inv2, inv3⟩ := sched_inv_reachable h
  have e1 := inv3 t1 h1 hf1
  have e2 := inv3 t2 h2 hf2
  rw [hnode] at e1
  rw [e2] at e1
  exact inv2 t1 h1 t2 h2 (Option.some.inj e1).symm

/-- Witness for C4 at a concrete reachable state: dispatch node "a",
finish its task, dispatch "a" again; the two unfinished-task hypotheses
are satisfiable only for the single in-flight task of node "a". -/
theorem claim_C4_witness :
    (⟨1, "a", false⟩ : SchedTask) = ⟨1, "a", false⟩ :=
  claim_C4
    (SchedReachable.step
      (SchedReachable.step
        (SchedReachable.step SchedReachable.init
          (SchedStep.dispatch "a" (by
            intro t ht
            simp [SchedState.initState] at ht)))
        (SchedStep.finish 0))
      (SchedStep.dispatch "a" (by
        intro t ht hm
        simp [SchedState.initState, SchedState.dispatchNode,
          SchedState.finishTask] at ht
        rw [ht])))
    ⟨1, "a", false⟩ ⟨1, "a", false⟩
    (by simp [SchedState.initState, SchedState.dispatchNode,
      SchedState.finishTask])
    (by simp [SchedState.initState, SchedState.dispatchNode,
      SchedState.finishTask])
    rfl rfl rfl

/-! ## Claim C3 — static-link propagation in `_enqueue_next_nodes`

`_enqueue_next_nodes.register_next_executions` (manager.py lines 302-394)
handles one outbound link of a producer: it projects the produced output
through the link, upserts the value into the earliest INCOMPLETE sink
execution (under the distributed lock), completes missing static pins from
the static cache, validates, enqueues on success, and — only when the
satisfied link is static and the validation of that primary execution
succeeded — rescans the remaining INCOMPLETE executions of the sink,
merging the new static value into each, revalidating, and enqueueing those
that become complete.  The store operations and the block schema are
modelled from the specification. -/

/-- An input mapping of a node execution (a Python dict pin → value). -/
def NodeInput : Type := String → Option PyVal

/-- The empty input mapping. -/
def NodeInput.emptyInput : NodeInput := fun _ => none

/-- `d[k] = v` on an input mapping. -/
def NodeInput.setPin (d : NodeInput) (k : String) (v : PyVal) : NodeInput :=
  fun x => if x = k then some v else d x

/-- A graph link (`backend.data.graph.Link`), reduced to the fields the
resolver reads. -/
structure Link where
  source_name : String
  sink_name : String
  sink_id : String
  is_static : Bool
deriving DecidableEq, Repr

/-- A graph node as the resolver reads it.  `required_fields` is modelled
from the spec: the required fields of the block input schema, which
section 4.6 checks for presence after merging the node input defaults. -/
structure GraphNode where
  node_id : String
  block_id : String
  input_default : List (String × PyVal)
  input_links : List Link
  required_fields : List String
deriving DecidableEq, Repr

/-- Modelled from the spec: `parse_execution_output` (from
`backend.data.execution`) projects the produced `(output_name,
output_value)` pair through a link source pin; a pin mismatch yields no
value (spec section 4.1 step 1). -/
def parse_execution_output (output : String × PyVal) (name : String) :
    Option PyVal :=
  if output.1 = name then some output.2 else none

/-- Modelled from the spec: `validate_exec` as the resolver uses it (spec
section 4.6, steps 4-5): merge the schema defaults of the node input
defaults under the provided data and require every required field to be
present; on failure return `none` (the error-message component is
irrelevant to this claim). -/
def validate_exec_m (node : GraphNode) (data : NodeInput) : Option NodeInput :=
  let merged : NodeInput :=
    fun k =>
      match data k with
      | some v => some v
      | none => alookup node.input_default k
  if node.required_fields.all (fun r => (merged r).isSome) then some merged
  else none

/-- A node execution row as the resolver manipulates it. -/
structure NodeExec where
  node_exec_id : Nat
  node_id : String
  status : ExecutionStatus
  input_data : NodeInput

/-- The persisted node executions of one graph run, ordered by creation
(earliest first), plus a fresh-id counter. -/
structure ResolverState where
  execs : List NodeExec
  nextId : Nat

/-- Modelled from the spec: `upsert_execution_input` (spec section 4.1
step 2) — attach the value to the earliest sink node execution still
INCOMPLETE and missing the pin; if none exists, create a new INCOMPLETE
execution with just this input.  Returns the execution id, its accumulated
input, and the new state. -/
def upsert_execution_input (s : ResolverState) (node_id : String)
    (input_name : String) (input_data : PyVal) :
    Nat × NodeInput × ResolverState :=
  match s.execs.find? (fun e =>
      decide (e.node_id = node_id ∧ e.status = ExecutionStatus.INCOMPLETE ∧
        e.input_data input_name = none)) with
  | some e =>
      (e.node_exec_id, e.input_data.setPin input_name input_data,
        { s with execs := s.execs.map fun e2 =>
            if e2.node_exec_id = e.node_exec_id then
              { e2 with input_data := e.input_data.setPin input_name input_data }
            else e2 })
  | none =>
      (s.nextId, NodeInput.emptyInput.setPin input_name input_data,
        ⟨s.execs ++ [⟨s.nextId, node_id, ExecutionStatus.INCOMPLETE,
            NodeInput.emptyInput.setPin input_name input_data⟩],
         s.nextId + 1⟩)

/-- Modelled from the spec: `get_latest_node_execution` returns the most
recent completed execution of the node within the run — the static cache
(spec section 4.1 step 3 and glossary). -/
def get_latest_node_execution (s : ResolverState) (node_id : String) :
    Option NodeExec :=
  (s.execs.filter fun e =>
    decide (e.node_id = node_id ∧ e.status = ExecutionStatus.COMPLETED)).getLast?

/-- Modelled from the spec: `get_incomplete_node_executions` lists the
INCOMPLETE executions of the node within the run. -/
def get_incomplete_node_executions (s : ResolverState) (node_id : String) :
    List NodeExec :=
  s.execs.filter fun e =>
    decide (e.node_id = node_id ∧ e.status = ExecutionStatus.INCOMPLETE)

/-- The static-pin completion step of `register_next_executions`
(manager.py lines 327-338 and 372-378): for every input link of the sink
marked static whose pin is absent from the accumulated input, pull the
value for that pin from the source mapping (an absent source value is
recorded as None, matching `dict.get`). -/
def merge_static_pins (next_node : GraphNode) (src : NodeInput)
    (idata : NodeInput) : NodeInput :=
  fun k =>
    match idata k with
    | some v => some v
    | none =>
        if next_node.input_links.any (fun l => l.is_static && (l.sink_name == k))
        then some ((src k).getD PyVal.vNone)
        else none

/-- Manager.py lines 327-338: complete missing static pins of the freshly
upserted input from the latest completed execution of the sink, when one
exists. -/
def fill_static_from_latest (next_node : GraphNode) (s : ResolverState)
    (ninput : NodeInput) : NodeInput :=
  match get_latest_node_execution s next_node.node_id with
  | none => ninput
  | some latest => merge_static_pins next_node latest.input_data ninput

/-- The status update performed by `add_enqueued_execution` (manager.py
lines 285-300): the execution is persisted QUEUED with its resolved
input. -/
def mark_queued (s : ResolverState) (eid : Nat) (d : NodeInput) :
    ResolverState :=
  { s with execs := s.execs.map fun e =>
      if e.node_exec_id = eid then
        { e with status := ExecutionStatus.QUEUED, input_data := d }
      else e }

/-- One record of a resolver run: a node execution considered for
enqueueing, the input it was (re)validated with, and whether it was
enqueued. -/
structure ScanRec where
  node_exec_id : Nat
  merged : NodeInput
  enqueued : Bool

/-- One iteration of the static-link rescan (manager.py lines 366-393):
merge the missing static pins of the INCOMPLETE execution from the freshly
validated input, revalidate, and enqueue on success. -/
def rescan_step (next_node : GraphNode) (vinput : NodeInput)
    (acc : List ScanRec × ResolverState) (iexec : NodeExec) :
    List ScanRec × ResolverState :=
  let idata := merge_static_pins next_node vinput iexec.input_data
  match validate_exec_m next_node idata with
  | none => (acc.1 ++ [⟨iexec.node_exec_id, idata, false⟩], acc.2)
  | some v2 =>
      (acc.1 ++ [⟨iexec.node_exec_id, idata, true⟩],
       mark_queued acc.2 iexec.node_exec_id v2)

/-- The static-link rescan of `register_next_executions` (manager.py lines
364-394): the INCOMPLETE executions of the sink are fetched once, then
each is merged, revalidated, and enqueued when it becomes complete. -/
def static_rescan (next_node : GraphNode) (vinput : NodeInput)
    (iexecs : List NodeExec) (s : ResolverState) :
    List ScanRec × ResolverState :=
  iexecs.foldl (rescan_step next_node vinput) ([], s)

/-- `_enqueue_next_nodes.register_next_executions` (manager.py lines
302-394) for one outbound link of the producer: project the output through
the link source pin (skip on mismatch); upsert the value; complete missing
static pins from the static cache; validate — on failure skip queueing and
return (the static rescan is NOT reached); on success enqueue the primary
execution and, when the link is static, rescan the remaining INCOMPLETE
executions of the sink.  Returns the scan records (primary first) and the
final state. -/
def register_next_executions (next_node : GraphNode) (node_link : Link)
    (output : String × PyVal) (s : ResolverState) :
    List ScanRec × ResolverState :=
  match parse_execution_output output node_link.source_name with
  | none => ([], s)
  | some next_data =>
      match upsert_execution_input s node_link.sink_id node_link.sink_name
          next_data with
      | (eid, up_input, s1) =>
          match validate_exec_m next_node
              (fill_static_from_latest next_node s1 up_input) with
          | none => ([], s1)
          | some vinput =>
              let s2 := mark_queued s1 eid vinput
              if node_link.is_static = false then ([⟨eid, vinput, true⟩], s2)
              else
                match static_rescan next_node vinput
                    (get_incomplete_node_executions s2 node_link.sink_id) s2 with
                | (recs, s3) => (⟨eid, vinput, true⟩ :: recs, s3)

theorem upsert_execution_input_sets (s : ResolverState)
    (node_id input_name : String) (v : PyVal) (eid : Nat)
    (up : NodeInput) (s1 : ResolverState)
    (h : upsert_execution_input s node_id input_name v = (eid, up, s1)) :
    up input_name = some v := by
  unfold upsert_execution_input at h
  split at h
  · injection h with h1 h23
    injection h23 with h2 h3
    rw [← h2]
    simp [NodeInput.setPin]
  · injection h with h1 h23
    injection h23 with h2 h3
    rw [← h2]
    simp [NodeInput.setPin]

theorem validate_exec_m_some (node : GraphNode) (d out : NodeInput)
    (h : validate_exec_m node d = some out) (k : String) :
    out k = match d k with
      | some v => some v
      | none => alookup node.input_default k := by
  simp only [validate_exec_m] at h
  split at h
  · injection h with h1
    rw [← h1]
  · exact Option.noConfusion h

theorem static_rescan_fold_preserves (next_node : GraphNode)
    (vinput : NodeInput) :
    ∀ (iexecs : List NodeExec) (acc : List ScanRec × ResolverState)
      (r : ScanRec), r ∈ acc.1 →
      r ∈ (iexecs.foldl (rescan_step next_node vinput) acc).1 := by
  intro iexecs
  induction iexecs with
  | nil => intro acc r hr; exact hr
  | cons hd tl ih =>
    intro acc r hr
    simp only [List.foldl_cons]
    apply ih
    simp only [rescan_step]
    split
    · exact List.mem_append_left _ hr
    · exact List.mem_append_left _ hr

theorem static_rescan_covers (next_node : GraphNode) (vinput : NodeInput) :
    ∀ (iexecs : List NodeExec) (acc : List ScanRec × ResolverState)
      (e : NodeExec), e ∈ iexecs →
    ∃ rec ∈ (iexecs.foldl (rescan_step next_node vinput) acc).1,
      rec.node_exec_id = e.node_exec_id ∧
      rec.merged = merge_static_pins next_node vinput e.input_data ∧
      (∀ v2, validate_exec_m next_node rec.merged = some v2 →
        rec.enqueued = true) := by
  intro iexecs
  induction iexecs with
  | nil => intro acc e he; simp at he
  | cons hd tl ih =>
    intro acc e he
    simp only [List.foldl_cons]
    rcases List.mem_cons.mp he with he1 | he2
    · subst he1
      cases hval : validate_exec_m next_node
          (merge_static_pins next_node vinput e.input_data) with
      | none =>
        refine ⟨⟨e.node_exec_id,
          merge_static_pins next_node vinput e.input_data, false⟩,
          ?_, rfl, rfl, ?_⟩
        · apply static_rescan_fold_preserves
          simp only [rescan_step, hval]
          exact List.mem_append_right _ (by simp)
        · intro v2 hv2
          rw [hval] at hv2
          exact Option.noConfusion hv2
      | some v2 =>
        refine ⟨⟨e.node_exec_id,
          merge_static_pins next_node vinput e.input_data, true⟩,
          ?_, rfl, rfl, fun _ _ => rfl⟩
        apply static_rescan_fold_preserves
        simp only [rescan_step, hval]
        exact List.mem_append_right _ (by simp)
    · exact ih _ e he2

/-- Claim C3 (amended): after a successful production on a static link L,
provided the primary execution that received the value validates
successfully (otherwise `register_next_executions` returns before the
rescan, manager.py line 345), every INCOMPLETE node execution of the sink
that was missing L.sink_name is rescanned with the produced value merged
into its input, and it is enqueued whenever the merged input
revalidates. -/
theorem claim_C3 (next_node : GraphNode) (node_link : Link)
    (output : String × PyVal) (s : ResolverState) (v : PyVal) (eid : Nat)
    (up_input : NodeInput) (s1 : ResolverState) (vinput : NodeInput)
    (hstatic : node_link.is_static = true)
    (hlink : node_link ∈ next_node.input_links)
    (hparse : parse_execution_output output node_link.source_name = some v)
    (hupsert : upsert_execution_input s node_link.sink_id node_link.sink_name v
      = (eid, up_input, s1))
    (hval : validate_exec_m next_node
      (fill_static_from_latest next_node s1 up_input) = some vinput) :
    ∀ e ∈ get_incomplete_node_executions (mark_queued s1 eid vinput)
        node_link.sink_id,
      e.input_data node_link.sink_name = none →
      ∃ rec ∈ (register_next_executions next_node node_link output s).1,
        rec.node_exec_id = e.node_exec_id ∧
        rec.merged node_link.sink_name = some v ∧
        (∀ v2, validate_exec_m next_node rec.merged = some v2 →
          rec.enqueued = true) := by
  intro e he hmiss
  have hreg : (register_next_executions next_node node_link output s).1
      = ⟨eid, vinput, true⟩ ::
        ((get_incomplete_node_executions (mark_queued s1 eid vinput)
            node_link.sink_id).foldl (rescan_step next_node vinput)
          ([], mark_queued s1 eid vinput)).1 := by
    simp only [register_next_executions, hparse, hupsert, hval, hstatic,
      static_rescan]
    simp
  rw [hreg]
  obtain ⟨rec, hmem, hid, hmerged, henq⟩ :=
    static_rescan_covers next_node vinput
      (get_incomplete_node_executions (mark_queued s1 eid vinput)
        node_link.sink_id)
      ([], mark_queued s1 eid vinput) e he
  refine ⟨rec, List.mem_cons_of_mem _ hmem, hid, ?_, henq⟩
  rw [hmerged]
  have hup : up_input node_link.sink_name = some v :=
    upsert_execution_input_sets s node_link.sink_id node_link.sink_name v eid
      up_input s1 hupsert
  have hfill : fill_static_from_latest next_node s1 up_input
      node_link.sink_name = some v := by
    unfold fill_static_from_latest
    cases get_latest_node_execution s1 next_node.node_id with
    | none => exact hup
    | some latest => simp [merge_static_pins, hup]
  have hvin : vinput node_link.sink_name = some v := by
    rw [validate_exec_m_some next_node _ vinput hval node_link.sink_name,
      hfill]
  have hany : next_node.input_links.any
      (fun l => l.is_static && (l.sink_name == node_link.sink_name))
      = true := by
    apply List.any_eq_true.mpr
    refine ⟨node_link, hlink, ?_⟩
    rw [hstatic]
    simp
  simp [merge_static_pins, hmiss, hany, hvin]

/-- The sink node of the concrete C3 runs: node "X" requires pins "cfg"
(fed by a static link from pin "out") and "val" (fed by a dynamic
link). -/
def sinkNodeX : GraphNode :=
  ⟨"X", "blockX", [],
   [⟨"out", "cfg", "X", true⟩, ⟨"o2", "val", "X", false⟩],
   ["cfg", "val"]⟩

/-- The static link into pin "cfg" of node "X". -/
def linkS : Link := ⟨"out", "cfg", "X", true⟩

/-- Counterexample state: two INCOMPLETE executions of "X", the earliest
with no inputs at all, the second already holding "val". -/
def c3CounterState : ResolverState :=
  ⟨[⟨0, "X", ExecutionStatus.INCOMPLETE, NodeInput.emptyInput⟩,
    ⟨1, "X", ExecutionStatus.INCOMPLETE,
      NodeInput.emptyInput.setPin "val" (PyVal.vInt 1)⟩], 2⟩

/-- Counterexample to C3 as stated: the production on the static link
succeeds — the value 7 is upserted into the earliest INCOMPLETE execution
(id 0) — but that execution still misses "val", so its validation fails
and `register_next_executions` returns before the static rescan:
execution 1, INCOMPLETE and missing "cfg", never receives the produced
value and nothing is enqueued. -/
theorem claim_C3_counterexample :
    (register_next_executions sinkNodeX linkS ("out", PyVal.vInt 7)
        c3CounterState).1 = [] ∧
    ((register_next_executions sinkNodeX linkS ("out", PyVal.vInt 7)
        c3CounterState).2.execs.map
      (fun e => (e.node_exec_id, e.status, e.input_data "cfg",
        e.input_data "val")))
      = [(0, ExecutionStatus.INCOMPLETE, some (PyVal.vInt 7), none),
         (1, ExecutionStatus.INCOMPLETE, none, some (PyVal.vInt 1))] :=
  ⟨rfl, rfl⟩

/-- Witness state: two INCOMPLETE executions of "X", both already holding
"val", both missing "cfg". -/
def c3WitnessState : ResolverState :=
  ⟨[⟨0, "X", ExecutionStatus.INCOMPLETE,
      NodeInput.emptyInput.setPin "val" (PyVal.vInt 5)⟩,
    ⟨1, "X", ExecutionStatus.INCOMPLETE,
      NodeInput.emptyInput.setPin "val" (PyVal.vInt 1)⟩], 2⟩

/-- The upsert performed by the witness run of C3. -/
def c3WitnessUpsert : Nat × NodeInput × ResolverState :=
  upsert_execution_input c3WitnessState "X" "cfg" (PyVal.vInt 7)

/-- The validated input of the primary execution of the C3 witness run. -/
def c3WitnessVinput : NodeInput :=
  fun k =>
    match fill_static_from_latest sinkNodeX c3WitnessUpsert.2.2
        c3WitnessUpsert.2.1 k with
    | some v => some v
    | none => alookup sinkNodeX.input_default k

/-- The second INCOMPLETE execution of the C3 witness run. -/
def c3WitnessE1 : NodeExec :=
  ⟨1, "X", ExecutionStatus.INCOMPLETE,
    NodeInput.emptyInput.setPin "val" (PyVal.vInt 1)⟩

/-- Witness for the amended C3 at a concrete run: the primary execution
(id 0) validates, so the rescan runs and execution 1 — INCOMPLETE and
missing "cfg" — receives the produced value 7 and is enqueued. -/
theorem claim_C3_witness :
    ∃ rec ∈ (register_next_executions sinkNodeX linkS ("out", PyVal.vInt 7)
        c3WitnessState).1,
      rec.node_exec_id = c3WitnessE1.node_exec_id ∧
      rec.merged linkS.sink_name = some (PyVal.vInt 7) ∧
      (∀ v2, validate_exec_m sinkNodeX rec.merged = some v2 →
        rec.enqueued = true) :=
  claim_C3 sinkNodeX linkS ("out", PyVal.vInt 7) c3WitnessState (PyVal.vInt 7)
    c3WitnessUpsert.1 c3WitnessUpsert.2.1 c3WitnessUpsert.2.2 c3WitnessVinput
    rfl (by decide) rfl rfl rfl c3WitnessE1
    (by
      have h : get_incomplete_node_executions
          (mark_queued c3WitnessUpsert.2.2 c3WitnessUpsert.1 c3WitnessVinput)
          linkS.sink_id = [c3WitnessE1] := rfl
      rw [h]
      exact List.mem_singleton.mpr rfl)
    rfl
